import Mathlib

/-! A shallow embedding of `downloader/downloader.go` (go_downloader).

The Go package splits a file into byte ranges, fetches every range with an
HTTP `Range` request and merges the fetched parts into one output file.

Conventions of the embedding

* Go `int` is modelled by `Int` (unbounded); Go's truncating division `/` is
  `Int.tdiv`.  The offsets the planning loop computes lie between `-1` and
  `fileTotalSize + totalPart` (`plan_offsets_bounded`), so 64-bit arithmetic
  does not wrap on them unless that sum reaches `2^63`.
* A Go slice is a `List`; an out-of-range index or a division by zero is a
  runtime panic, modelled by `Outcome.crash`.
* Everything outside the package (the HTTP client, `os`, `mime`, `filepath`,
  `strconv`, `crypto/sha256`) is gathered in the record `World`, whose fields
  give the result each external call returns, a short or failing write to the
  output file included.
* The goroutines of `Run` touch the shared state only through the single
  assignment `d.doneFilePart[c.Index] = c`; a run is therefore modelled by
  executing `downloadPart` for the jobs one after another in a completion
  order `order`, which the theorems take to be a permutation of the indices.
-/

namespace Downloader

/-- One byte of a response body or of the output file. -/
abbrev Byte := Fin 256

/-- The struct `filePart`: a planned range and, once fetched, its bytes. -/
structure filePart where
  Index : Int
  From : Int
  To : Int
  Data : List Byte
deriving DecidableEq, Repr

/-- The zero value of `filePart`, as produced by `make([]filePart, n)`. -/
def filePart.zero : filePart := { Index := 0, From := 0, To := 0, Data := [] }

/-- The struct `FileDownloader`. -/
structure FileDownloader where
  fileSize : Int
  url : String
  outputFileName : String
  totalPart : Int
  outputDir : String
  doneFilePart : List filePart
  md5 : String
deriving DecidableEq, Repr

/-- The errors the package returns, one constructor per `return` of an error. -/
inductive DlError where
  /-- an error of `http.DefaultClient.Do` -/
  | transport
  /-- an error of `http.NewRequest` returned by `getNewRequest` -/
  | newRequest
  /-- `Can't process, response is <status>` (probe) -/
  | probeStatus (code : Int)
  /-- the server does not support range requests -/
  | rangeUnsupported
  /-- `get file info err: ...` -/
  | fileInfo
  /-- an error of `strconv.Atoi` on the Content-Length header -/
  | contentLength
  /-- the server answered a part request with a status above 299 -/
  | partStatus (code : Int)
  /-- an error of `ioutil.ReadAll` -/
  | readBody
  /-- the part's body length differs from `To - From + 1` -/
  | lengthMismatch
  /-- an error of `os.Create` -/
  | createFile
  /-- the merged size differs from `fileSize` (the file is incomplete) -/
  | incompleteFile
  /-- the digest differs from the expected one (the file is corrupted) -/
  | integrityMismatch
deriving DecidableEq, Repr

/-- What a Go call does: return normally, return an error, or panic. -/
inductive Outcome (α : Type) where
  | ok (a : α)
  | err (e : DlError)
  | crash
deriving DecidableEq, Repr

/-- The part of `http.Response` the package reads. -/
structure Response where
  StatusCode : Int
  Header : List (String × List String)
  /-- the field `resp.Request.URL.Path` -/
  Path : String
  /-- what `ioutil.ReadAll(resp.Body)` returns: the bytes read, or an error -/
  Body : Except DlError (List Byte)

/-- The method `http.Header.Get`: the first value stored under the key, or the
empty string. -/
def HeaderGet (h : List (String × List String)) (key : String) : String :=
  match h.lookup key with
  | some (v :: _) => v
  | _ => ""

/-- The results of the calls that leave the package; a call returning
`(value, error)` is an `Except`. -/
structure World where
  /-- whether `http.NewRequest(method, url, nil)` succeeds -/
  newRequest : String → String → Bool
  /-- the result of `http.DefaultClient.Do` for the HEAD request -/
  head : Except DlError Response
  /-- the result of `http.DefaultClient.Do` for the GET request of a part -/
  get : filePart → Except DlError Response
  /-- the function `mime.ParseMediaType`, reduced to its parameter map -/
  parseMediaType : String → Except DlError (List (String × String))
  /-- the function `filepath.Base` -/
  base : String → String
  /-- the function `strconv.Atoi` -/
  atoi : String → Except DlError Int
  /-- the function `os.Getwd`; the empty string when it fails -/
  getwd : String
  /-- the function `filepath.Join` -/
  join : String → String → String
  /-- whether `os.Create(path)` succeeds -/
  create : String → Bool
  /-- how many of the bytes handed to it the `k`-th call of `mergedFile.Write`
  (counted from 0) writes to the file; the call returns an error exactly when
  that is fewer than all of them -/
  write : Nat → List Byte → Nat
  /-- the digest `sha256` computes of the bytes written to it -/
  sha256 : List Byte → List Byte

/-! ## Planning the ranges (`Run`, the loop over `jobs`) -/

/-- One iteration of `for i := range jobs` in `Run`. -/
def planStep (fileTotalSize totalPart eachSize : Int) (jobs : List filePart) (i : Nat) :
    List filePart :=
  let old := jobs.getD i filePart.zero
  let from_ : Int := if i = 0 then 0 else (jobs.getD (i - 1) filePart.zero).To + 1
  let to_ : Int := if (i : Int) < totalPart - 1 then from_ + eachSize else fileTotalSize - 1
  jobs.set i { old with Index := (i : Int), From := from_, To := to_ }

/-- The slice `jobs` after the planning loop of `Run`, for `totalPart ≥ 1`:
`jobs := make([]filePart, totalPart)`, `eachSize := fileTotalSize / totalPart`,
then the loop. -/
def planJobs (fileTotalSize totalPart : Int) : List filePart :=
  let jobs := List.replicate totalPart.toNat filePart.zero
  let eachSize := Int.tdiv fileTotalSize totalPart
  (List.range totalPart.toNat).foldl (planStep fileTotalSize totalPart eachSize) jobs

/-- The length `To - From + 1` of a range, as `downloadPart` computes it. -/
def filePart.len (c : filePart) : Int := c.To - c.From + 1

/-- The ranges of `jobs` as pairs `(From, To)`. -/
def ranges (jobs : List filePart) : List (Int × Int) := jobs.map fun c => (c.From, c.To)

/-- The PartPlan invariant: the first range starts at 0, the last one ends at
`totalSize - 1`, each range starts right after its predecessor, and every
range is non-empty and inside the file. -/
def ValidPartition (jobs : List filePart) (totalSize : Int) : Prop :=
  0 < jobs.length ∧
  (jobs.getD 0 filePart.zero).From = 0 ∧
  (jobs.getD (jobs.length - 1) filePart.zero).To = totalSize - 1 ∧
  (∀ i, i < jobs.length → 1 ≤ i →
    (jobs.getD i filePart.zero).From = (jobs.getD (i - 1) filePart.zero).To + 1) ∧
  (∀ i, i < jobs.length →
    0 ≤ (jobs.getD i filePart.zero).From ∧
    (jobs.getD i filePart.zero).From ≤ (jobs.getD i filePart.zero).To ∧
    (jobs.getD i filePart.zero).To ≤ totalSize - 1)

instance (jobs : List filePart) (totalSize : Int) : Decidable (ValidPartition jobs totalSize) := by
  unfold ValidPartition
  infer_instance

/-! ## The probe (`getHeaderInfo`, `parseFileInfo`) -/

/-- The function `parseFileInfo`: the `filename` parameter of the
Content-Disposition header when that header is set, else the base name of the
request path. -/
def parseFileInfo (w : World) (resp : Response) : Except DlError String :=
  let contentDisposition := HeaderGet resp.Header "Content-Disposition"
  if contentDisposition ≠ "" then
    match w.parseMediaType contentDisposition with
    | .ok params => .ok ((params.lookup "filename").getD "")
    | .error e => .error e
  else
    .ok (w.base resp.Path)

/-- The method `getHeaderInfo`: the returned `(int, error)` and the receiver
afterwards.  The error of `getNewRequest` is overwritten unread, so a request
that could not be built reaches `Do` as a nil pointer and panics. -/
def getHeaderInfo (w : World) (d : FileDownloader) : Outcome Int × FileDownloader :=
  if w.newRequest "HEAD" d.url = false then (.crash, d) else
  match w.head with
  | .error e => (.err e, d)
  | .ok resp =>
    if resp.StatusCode > 299 then (.err (.probeStatus resp.StatusCode), d)
    else if HeaderGet resp.Header "Accept-Ranges" ≠ "bytes" then (.err .rangeUnsupported, d)
    else
      match parseFileInfo w resp with
      | .error _ => (.err .fileInfo, d)
      | .ok outputFileName =>
        let d1 := if d.outputFileName = "" then { d with outputFileName := outputFileName } else d
        match w.atoi (HeaderGet resp.Header "Content-Length") with
        | .ok n => (.ok n, d1)
        | .error e => (.err e, d1)

/-! ## Fetching one part (`downloadPart`) -/

/-- The method `downloadPart`: the returned error and the receiver afterwards.
The only write to the receiver is `d.doneFilePart[c.Index] = c`, which panics
when `c.Index` is not an index of the slice. -/
def downloadPart (w : World) (d : FileDownloader) (c : filePart) : Outcome Unit × FileDownloader :=
  if w.newRequest "GET" d.url = false then (.err .newRequest, d) else
  match w.get c with
  | .error e => (.err e, d)
  | .ok resp =>
    if resp.StatusCode > 299 then (.err (.partStatus resp.StatusCode), d)
    else
      match resp.Body with
      | .error e => (.err e, d)
      | .ok bs =>
        if (bs.length : Int) ≠ c.To - c.From + 1 then (.err .lengthMismatch, d)
        else
          let c1 := { c with Data := bs }
          if 0 ≤ c.Index ∧ c.Index < (d.doneFilePart.length : Int) then
            (.ok (), { d with doneFilePart := d.doneFilePart.set c.Index.toNat c1 })
          else (.crash, d)

/-! ## Merging (`mergeFileParts`) -/

/-- The table `hextable` of `encoding/hex`. -/
def hextable : List Char := "0123456789abcdef".toList

/-- The function `hex.EncodeToString`: two lower-case hex digits per byte. -/
def EncodeToString (src : List Byte) : String :=
  String.mk (src.flatMap fun v => [hextable.getD (v.val / 16) '0', hextable.getD (v.val % 16) '0'])

/-- The local state of the merge loop. -/
structure MergeState where
  /-- the content of the output file -/
  file : List Byte
  /-- the bytes handed to `mergedFile.Write`, in call order -/
  handed : List Byte
  /-- the bytes written to the hash -/
  hashed : List Byte
  /-- the variable `totalSize` -/
  totalSize : Int
  /-- the number of calls of `mergedFile.Write` so far -/
  calls : Nat
deriving DecidableEq, Repr

/-- One iteration of `for _, s := range d.doneFilePart`: `mergedFile.Write`
appends the bytes it manages to write, and its error is only printed; then
`s.Data` goes to the hash in full and `totalSize` grows by `len(s.Data)`. -/
def mergeStep (w : World) (st : MergeState) (s : filePart) : MergeState :=
  { file := st.file ++ s.Data.take (w.write st.calls s.Data)
    handed := st.handed ++ s.Data
    hashed := st.hashed ++ s.Data
    totalSize := st.totalSize + (s.Data.length : Int)
    calls := st.calls + 1 }

/-- The merge loop of `mergeFileParts`. -/
def mergeLoop (w : World) (parts : List filePart) : MergeState :=
  parts.foldl (mergeStep w) { file := [], hashed := [], handed := [], totalSize := 0, calls := 0 }

/-- What a call of `mergeFileParts` leaves behind. -/
structure MergeTrace where
  /-- the returned error -/
  result : Outcome Unit
  /-- the bytes handed to `mergedFile.Write`, in call order; `none` when the
  output file was not created -/
  handed : Option (List Byte)
  /-- the content of the output file; `none` when it was not created -/
  file : Option (List Byte)

/-- The method `mergeFileParts`. -/
def mergeFileParts (w : World) (d : FileDownloader) : MergeTrace :=
  let path := w.join d.outputDir d.outputFileName
  if w.create path = false then { result := .err .createFile, handed := none, file := none } else
  let st := mergeLoop w d.doneFilePart
  if st.totalSize ≠ d.fileSize then
    { result := .err .incompleteFile, handed := some st.handed, file := some st.file }
  else if d.md5 ≠ "" then
    if EncodeToString (w.sha256 st.hashed) ≠ d.md5 then
      { result := .err .integrityMismatch, handed := some st.handed, file := some st.file }
    else { result := .ok (), handed := some st.handed, file := some st.file }
  else { result := .ok (), handed := some st.handed, file := some st.file }

/-! ## The constructor and `Run` -/

/-- The function `NewFileDownloader`; `make` panics on a negative length. -/
def NewFileDownloader (w : World) (url outputFileName outputDir : String) (totalPart : Int)
    (md5 : String) : Outcome FileDownloader :=
  let outputDir := if outputDir = "" then w.getwd else outputDir
  if totalPart < 0 then .crash
  else .ok
    { fileSize := 0
      url := url
      outputFileName := outputFileName
      outputDir := outputDir
      totalPart := totalPart
      doneFilePart := List.replicate totalPart.toNat filePart.zero
      md5 := md5 }

/-- The body of one goroutine of `Run`: `downloadPart`, whose returned error
is only logged; a panic ends the program. -/
def fetchStep (w : World) (st : Outcome FileDownloader) (job : filePart) : Outcome FileDownloader :=
  match st with
  | .ok d =>
    match downloadPart w d job with
    | (.crash, _) => .crash
    | (_, d1) => .ok d1
  | other => other

/-- The fetch phase of `Run` up to `wg.Wait()`, the goroutines completing in
the order of `sched`. -/
def fetchAll (w : World) (d : FileDownloader) (sched : List filePart) : Outcome FileDownloader :=
  sched.foldl (fetchStep w) (.ok d)

/-- The slots written during the fetch phase, in the order of the writes: the
`Index` of every job whose `downloadPart` reached the assignment
`d.doneFilePart[c.Index] = c`. -/
def writtenSlots (w : World) : FileDownloader → List filePart → List Int
  | _, [] => []
  | d, job :: rest =>
    match downloadPart w d job with
    | (.ok _, d1) => job.Index :: writtenSlots w d1 rest
    | (.err _, d1) => writtenSlots w d1 rest
    | (.crash, _) => []

/-- What a call of `Run` leaves behind. -/
structure RunTrace where
  /-- the returned error, or the panic -/
  result : Outcome Unit
  /-- the receiver afterwards -/
  state : FileDownloader
  /-- the jobs handed to a goroutine -/
  launched : List filePart
  /-- the content of the output file, `none` when it was not created -/
  file : Option (List Byte)

/-- The method `Run`, the goroutines completing in the order `order` (a list
of job indices). -/
def Run (w : World) (d : FileDownloader) (order : List Nat) : RunTrace :=
  match getHeaderInfo w d with
  | (.crash, d1) => { result := .crash, state := d1, launched := [], file := none }
  | (.err e, d1) => { result := .err e, state := d1, launched := [], file := none }
  | (.ok fileTotalSize, d1) =>
    let d2 := { d1 with fileSize := fileTotalSize }
    if d2.totalPart ≤ 0 then
      -- `make` with a negative length, or the division by zero
      { result := .crash, state := d2, launched := [], file := none }
    else
      let jobs := planJobs fileTotalSize d2.totalPart
      let sched := order.filterMap fun i => jobs[i]?
      match fetchAll w d2 sched with
      | .ok d3 =>
        let m := mergeFileParts w d3
        { result := m.result, state := d3, launched := sched, file := m.file }
      | _ => { result := .crash, state := d2, launched := sched, file := none }

/-! ## Auxiliary definitions used by the theorems -/

/-- The closed form of the `i`-th planned job for `n` parts. -/
def plannedJob (total : Int) (n i : Nat) : filePart :=
  { Index := (i : Int)
    From := (i : Int) * (Int.tdiv total (n : Int) + 1)
    To := if i + 1 < n then (i : Int) * (Int.tdiv total (n : Int) + 1) + Int.tdiv total (n : Int)
          else total - 1
    Data := [] }

/-- The body with which `downloadPart` passes its length check, `none` when it
returns an error before the assignment to `doneFilePart`. -/
def acceptedBody (w : World) (url : String) (c : filePart) : Option (List Byte) :=
  if w.newRequest "GET" url = false then none else
  match w.get c with
  | .error _ => none
  | .ok resp =>
    if resp.StatusCode > 299 then none
    else
      match resp.Body with
      | .error _ => none
      | .ok bs => if (bs.length : Int) ≠ c.To - c.From + 1 then none else some bs

/-- The content of a slot after the goroutine of `job` has ended: the job with
its data when the fetch was accepted, the old content otherwise. -/
def storeSlot (w : World) (url : String) (job old : filePart) : filePart :=
  match acceptedBody w url job with
  | some bs => { job with Data := bs }
  | none => old

/-! ## Concrete inputs on which the theorems are evaluated -/

/-- A four-byte source file. -/
def sampleFile : List Byte := [10, 20, 30, 40]

/-- A server that holds `sampleFile`, announces range support and answers
every range request with exactly the requested bytes. -/
def sampleWorld : World where
  newRequest := fun _ _ => true
  head := .ok
    { StatusCode := 200
      Header := [("Accept-Ranges", ["bytes"]), ("Content-Length", ["4"])]
      Path := "/pub/f.bin"
      Body := .ok [] }
  get := fun c => .ok
    { StatusCode := 206
      Header := []
      Path := "/pub/f.bin"
      Body := .ok ((sampleFile.drop c.From.toNat).take (c.To - c.From + 1).toNat) }
  parseMediaType := fun _ => .ok []
  base := fun _ => "f.bin"
  atoi := fun s => if s = "4" then .ok 4 else .error .contentLength
  getwd := "/tmp"
  join := fun a b => a ++ "/" ++ b
  create := fun _ => true
  write := fun _ bs => bs.length
  sha256 := fun bs => bs.take 2

/-- The downloader for `sampleFile` in two parts after both parts were
fetched: the planned ranges are `[0,2]` and `[3,3]`. -/
def sampleDone : FileDownloader :=
  { fileSize := 4
    url := "http://host/pub/f.bin"
    outputFileName := "f.bin"
    totalPart := 2
    outputDir := "/tmp"
    doneFilePart := [⟨0, 0, 2, [10, 20, 30]⟩, ⟨1, 3, 3, [40]⟩]
    md5 := "0a14" }

/-- The downloader for `sampleFile` in two parts before any part was fetched. -/
def sampleFresh : FileDownloader :=
  { fileSize := 0
    url := "http://host/pub/f.bin"
    outputFileName := ""
    totalPart := 2
    outputDir := "/tmp"
    doneFilePart := [filePart.zero, filePart.zero]
    md5 := "" }

/-- A server like `sampleWorld` whose probe response carries no Accept-Ranges
header. -/
def noRangeWorld : World :=
  { sampleWorld with
    head := .ok
      { StatusCode := 200
        Header := [("Content-Length", ["4"])]
        Path := "/pub/f.bin"
        Body := .ok [] } }

/-- A server like `sampleWorld` that answers the request of part 1 with an
empty body, one byte short of the range `[3,3]`. -/
def shortWorld : World :=
  { sampleWorld with
    get := fun c => .ok
      { StatusCode := 206
        Header := []
        Path := "/pub/f.bin"
        Body := .ok (if c.Index = 1 then []
          else (sampleFile.drop c.From.toNat).take (c.To - c.From + 1).toNat) } }

/-- A server holding the one-byte file `[7]`: it answers a range with
`From ≤ To` with the requested bytes and status 206, and a range with
`From > To`, which is not a valid byte range, with the whole file and
status 200. -/
def tinyWorld : World where
  newRequest := fun _ _ => true
  head := .ok
    { StatusCode := 200
      Header := [("Accept-Ranges", ["bytes"]), ("Content-Length", ["1"])]
      Path := "/pub/t.bin"
      Body := .ok [] }
  get := fun c =>
    if c.From ≤ c.To then .ok
      { StatusCode := 206
        Header := []
        Path := "/pub/t.bin"
        Body := .ok ((([7] : List Byte).drop c.From.toNat).take (c.To - c.From + 1).toNat) }
    else .ok
      { StatusCode := 200
        Header := []
        Path := "/pub/t.bin"
        Body := .ok [7] }
  parseMediaType := fun _ => .ok []
  base := fun _ => "t.bin"
  atoi := fun s => if s = "1" then .ok 1 else .error .contentLength
  getwd := "/tmp"
  join := fun a b => a ++ "/" ++ b
  create := fun _ => true
  write := fun _ bs => bs.length
  sha256 := fun bs => bs.take 2

/-- The downloader for the file of `tinyWorld` in two parts, as
`NewFileDownloader` returns it. -/
def tinyFresh : FileDownloader :=
  { fileSize := 0
    url := "http://host/pub/t.bin"
    outputFileName := ""
    totalPart := 2
    outputDir := "/tmp"
    doneFilePart := [filePart.zero, filePart.zero]
    md5 := "" }

/-- A machine like that of `sampleWorld` whose output device is full: every
`mergedFile.Write` writes no byte and returns an error. -/
def fullDiskWorld : World :=
  { sampleWorld with write := fun _ _ => 0 }

/-! ## The planning loop in closed form -/

theorem planStep_length (total n q : Int) (jobs : List filePart) (i : Nat) :
    (planStep total n q jobs i).length = jobs.length := by
  simp [planStep]

theorem planLoop_length (total n q : Int) (k : Nat) (jobs : List filePart) :
    ((List.range k).foldl (planStep total n q) jobs).length = jobs.length := by
  induction k with
  | zero => simp
  | succ k ih => rw [List.range_succ, List.foldl_append]; simp [planStep_length, ih]

theorem planLoop_getElem? (total : Int) (n : Nat) (k : Nat) (hk : k ≤ n) (i : Nat) :
    ((List.range k).foldl (planStep total (n : Int) (Int.tdiv total (n : Int)))
        (List.replicate n filePart.zero))[i]? =
      if i < k then some (plannedJob total n i)
      else if i < n then some filePart.zero else none := by
  induction k generalizing i with
  | zero => simp [List.getElem?_replicate]
  | succ k ih =>
    have hk' : k ≤ n := by omega
    rw [List.range_succ, List.foldl_append]
    simp only [List.foldl_cons, List.foldl_nil]
    set jobs := (List.range k).foldl (planStep total (n : Int) (Int.tdiv total (n : Int)))
        (List.replicate n filePart.zero) with hjobs
    have hlen : jobs.length = n := by
      rw [hjobs, planLoop_length]; simp
    have hold : jobs.getD k filePart.zero = filePart.zero := by
      rw [List.getD_eq_getElem?_getD, ih hk' k]
      have hkn : k < n := hk
      simp [hkn]
    have hprev : 0 < k → jobs.getD (k - 1) filePart.zero = plannedJob total n (k - 1) := by
      intro h0
      rw [List.getD_eq_getElem?_getD, ih hk' (k - 1)]
      have : k - 1 < k := by omega
      simp [this]
    unfold planStep
    rw [List.getElem?_set]
    by_cases hik : k = i
    · subst hik
      have h1 : k < jobs.length := by omega
      simp only [h1, if_true, hold]
      have h2 : k < k + 1 := by omega
      simp only [h2, if_true]
      congr 1
      rcases Nat.eq_zero_or_pos k with h0 | h0
      · subst h0
        simp [plannedJob, filePart.zero]
      · have hne : k ≠ 0 := by omega
        simp only [hne, if_false, hprev h0]
        simp only [plannedJob, filePart.zero]
        have hk1 : k - 1 + 1 < n := by omega
        simp only [hk1, if_true]
        have hc : ((k - 1 : Nat) : Int) = (k : Int) - 1 := by omega
        rw [hc]
        by_cases hn : k + 1 < n
        · have : (k : Int) < (n : Int) - 1 := by omega
          simp only [hn, this, if_true]
          congr 1 <;> ring
        · have : ¬ (k : Int) < (n : Int) - 1 := by omega
          simp only [hn, this, if_false]
          congr 1; ring
    · simp only [hik, if_false]
      rw [ih hk' i]
      by_cases h1 : i < k
      · have : i < k + 1 := by omega
        simp [h1, this]
      · have : ¬ i < k + 1 := by omega
        simp [h1, this]

theorem planJobs_eq (total : Int) (n : Nat) :
    planJobs total (n : Int) = (List.range n).map (plannedJob total n) := by
  apply List.ext_getElem?
  intro i
  unfold planJobs
  simp only [Int.toNat_ofNat]
  rw [planLoop_getElem? total n n (le_refl n) i]
  by_cases h : i < n
  · simp [h, List.getElem?_range]
  · have hnone : (List.range n)[i]? = none := List.getElem?_eq_none (by simp; omega)
    simp [h, hnone]

theorem planJobs_length (total : Int) (n : Nat) : (planJobs total (n : Int)).length = n := by
  simp [planJobs_eq]

theorem planJobs_getD (total : Int) (n i : Nat) (h : i < n) :
    (planJobs total (n : Int)).getD i filePart.zero = plannedJob total n i := by
  rw [List.getD_eq_getElem?_getD, planJobs_eq, List.getElem?_map, List.getElem?_range h]
  rfl

theorem planJobs_getElem? (total : Int) (n i : Nat) (h : i < n) :
    (planJobs total (n : Int))[i]? = some (plannedJob total n i) := by
  rw [planJobs_eq, List.getElem?_map, List.getElem?_range h]
  rfl

theorem plannedJob_len_inner (total : Int) (n i : Nat) (h : i + 1 < n) :
    (plannedJob total n i).len = Int.tdiv total (n : Int) + 1 := by
  simp only [filePart.len, plannedJob, h, if_true]
  ring

theorem plannedJob_len_last (total : Int) (m : Nat) :
    (plannedJob total (m + 1) m).len = total - (m : Int) * (Int.tdiv total ((m + 1 : Nat) : Int) + 1) := by
  simp only [filePart.len, plannedJob, lt_irrefl, if_false]
  ring

theorem plannedJob_len_inner_sum (total : Int) (m k : Nat) (hk : k ≤ m) :
    ((List.range k).map fun i => (plannedJob total (m + 1) i).len).sum =
      (k : Int) * (Int.tdiv total ((m + 1 : Nat) : Int) + 1) := by
  induction k with
  | zero => simp
  | succ k ih =>
    have hk' : k ≤ m := by omega
    have hk1 : k + 1 < m + 1 := by omega
    rw [List.range_succ, List.map_append, List.sum_append, ih hk']
    simp only [List.map_cons, List.map_nil, List.sum_cons, List.sum_nil, add_zero]
    rw [plannedJob_len_inner total (m + 1) k hk1]
    push_cast
    ring

/-- The signed lengths of the planned ranges add up to the total size, for any
total size and any positive number of parts. -/
theorem planJobs_len_sum (total : Int) (n : Nat) (hn : 1 ≤ n) :
    ((planJobs total (n : Int)).map filePart.len).sum = total := by
  obtain ⟨m, rfl⟩ : ∃ m, n = m + 1 := ⟨n - 1, by omega⟩
  rw [planJobs_eq, List.map_map, List.range_succ, List.map_append, List.sum_append]
  have h := plannedJob_len_inner_sum total m m (le_refl m)
  simp only [Function.comp_def] at *
  rw [h]
  simp only [List.map_cons, List.map_nil, List.sum_cons, List.sum_nil, add_zero]
  rw [plannedJob_len_last]
  ring

/-- With `n * n ≤ total` the quotient `total / n` is at least `n`, and the
start of the last range is inside the file. -/
theorem plan_bounds (total : Int) (n : Nat) (hn : 1 ≤ n) (hsq : (n : Int) * (n : Int) ≤ total) :
    (n : Int) ≤ Int.tdiv total (n : Int) ∧
    ((n : Int) - 1) * (Int.tdiv total (n : Int) + 1) ≤ total - 1 := by
  have hn0 : (0 : Int) < (n : Int) := by omega
  have htot : 0 ≤ total := le_trans (mul_nonneg hn0.le hn0.le) hsq
  rw [Int.tdiv_eq_ediv htot hn0.le]
  have hq : (n : Int) ≤ total / (n : Int) := Int.le_ediv_of_mul_le hn0 hsq
  have hmul : total / (n : Int) * (n : Int) ≤ total := Int.ediv_mul_le total hn0.ne'
  refine ⟨hq, ?_⟩
  have : ((n : Int) - 1) * (total / (n : Int) + 1) =
      total / (n : Int) * (n : Int) + (n : Int) - total / (n : Int) - 1 := by ring
  rw [this]
  omega

/-- Every offset the planning loop computes for a file of size `total ≥ 0` lies
between `-1` and `total + n`, so the loop does not leave the range of a 64-bit
`int` as long as `total + n < 2^63`. -/
theorem plan_offsets_bounded (total : Int) (n i : Nat) (htot : 0 ≤ total) (hi : i < n) :
    0 ≤ (plannedJob total n i).From ∧ (plannedJob total n i).From ≤ total + (n : Int) ∧
    -1 ≤ (plannedJob total n i).To ∧ (plannedJob total n i).To ≤ total + (n : Int) := by
  have hn0 : (0 : Int) < (n : Int) := by omega
  have hdiv : Int.tdiv total (n : Int) = total / (n : Int) := Int.tdiv_eq_ediv htot hn0.le
  have hq0 : 0 ≤ total / (n : Int) := Int.ediv_nonneg htot hn0.le
  have hmul : total / (n : Int) * (n : Int) ≤ total := Int.ediv_mul_le total hn0.ne.symm
  have hq1 : (0 : Int) ≤ total / (n : Int) + 1 := by omega
  have hmono : (i : Int) * (total / (n : Int) + 1) ≤ ((n : Int) - 1) * (total / (n : Int) + 1) :=
    mul_le_mul_of_nonneg_right (by omega) hq1
  have hexp : ((n : Int) - 1) * (total / (n : Int) + 1)
      = total / (n : Int) * (n : Int) + (n : Int) - total / (n : Int) - 1 := by ring
  have hfrom : 0 ≤ (i : Int) * (total / (n : Int) + 1) := mul_nonneg (by omega) hq1
  by_cases hin : i + 1 < n
  · have hmono2 : ((i : Int) + 1) * (total / (n : Int) + 1)
        ≤ ((n : Int) - 1) * (total / (n : Int) + 1) :=
      mul_le_mul_of_nonneg_right (by omega) hq1
    have hexp2 : ((i : Int) + 1) * (total / (n : Int) + 1)
        = (i : Int) * (total / (n : Int) + 1) + total / (n : Int) + 1 := by ring
    simp only [plannedJob, hin, if_true, hdiv]
    refine ⟨hfrom, by omega, by omega, by omega⟩
  · simp only [plannedJob, hin, if_false, hdiv]
    refine ⟨hfrom, by omega, by omega, by omega⟩

/-- For any total size and any positive number of parts the planned ranges are
chained: the first starts at 0, the last ends at `total - 1`, and each range
starts right after its predecessor.  (Whether every range is non-empty and
inside the file depends on the sizes.) -/
theorem planJobs_chain (total : Int) (n : Nat) (hn : 1 ≤ n) :
    ((planJobs total (n : Int)).getD 0 filePart.zero).From = 0 ∧
    ((planJobs total (n : Int)).getD (n - 1) filePart.zero).To = total - 1 ∧
    ∀ i, 1 ≤ i → i < n →
      ((planJobs total (n : Int)).getD i filePart.zero).From =
        ((planJobs total (n : Int)).getD (i - 1) filePart.zero).To + 1 := by
  refine ⟨?_, ?_, ?_⟩
  · rw [planJobs_getD total n 0 (by omega)]
    simp [plannedJob]
  · rw [planJobs_getD total n (n - 1) (by omega)]
    have : ¬ (n - 1 + 1 < n) := by omega
    simp only [plannedJob, this, if_false]
  · intro i h1 hi
    rw [planJobs_getD total n i hi, planJobs_getD total n (i - 1) (by omega)]
    have hprev : i - 1 + 1 < n := by omega
    have hc : ((i - 1 : Nat) : Int) = (i : Int) - 1 := by omega
    simp only [plannedJob, hprev, if_true, hc]
    ring

/-! ## The merge loop -/

theorem mergeLoop_foldl (w : World) (parts : List filePart) (st : MergeState) :
    (parts.foldl (mergeStep w) st).handed = st.handed ++ (parts.map fun s => s.Data).flatten ∧
    (parts.foldl (mergeStep w) st).hashed = st.hashed ++ (parts.map fun s => s.Data).flatten ∧
    (parts.foldl (mergeStep w) st).totalSize =
      st.totalSize + (parts.map fun s => (s.Data.length : Int)).sum ∧
    (parts.foldl (mergeStep w) st).calls = st.calls + parts.length := by
  induction parts generalizing st with
  | nil => simp
  | cons p ps ih =>
    rw [List.foldl_cons]
    obtain ⟨h1, h2, h3, h4⟩ := ih (mergeStep w st p)
    rw [h1, h2, h3, h4]
    simp only [mergeStep, List.map_cons, List.flatten_cons, List.sum_cons, List.length_cons,
      List.append_assoc]
    refine ⟨trivial, trivial, by ring, by omega⟩

theorem mergeLoop_handed (w : World) (parts : List filePart) :
    (mergeLoop w parts).handed = (parts.map fun s => s.Data).flatten := by
  unfold mergeLoop
  rw [(mergeLoop_foldl w parts _).1]
  simp

theorem mergeLoop_hashed (w : World) (parts : List filePart) :
    (mergeLoop w parts).hashed = (parts.map fun s => s.Data).flatten := by
  unfold mergeLoop
  rw [(mergeLoop_foldl w parts _).2.1]
  simp

theorem mergeLoop_totalSize (w : World) (parts : List filePart) :
    (mergeLoop w parts).totalSize = (parts.map fun s => (s.Data.length : Int)).sum := by
  unfold mergeLoop
  rw [(mergeLoop_foldl w parts _).2.2.1]
  simp

/-- When every `mergedFile.Write` of the loop writes all the bytes handed to
it, the file holds the data of the parts, concatenated. -/
theorem mergeLoop_file_foldl (w : World) (parts : List filePart) :
    ∀ st : MergeState,
    (∀ k, k < parts.length →
      (parts.getD k filePart.zero).Data.length
        ≤ w.write (st.calls + k) (parts.getD k filePart.zero).Data) →
    (parts.foldl (mergeStep w) st).file = st.file ++ (parts.map fun s => s.Data).flatten := by
  induction parts with
  | nil => intro st _; simp
  | cons p ps ih =>
    intro st h
    rw [List.foldl_cons, ih (mergeStep w st p)]
    · have h0 := h 0 (by simp)
      simp only [List.getD_cons_zero, Nat.add_zero] at h0
      simp only [mergeStep, List.map_cons, List.flatten_cons, List.append_assoc]
      rw [List.take_of_length_le h0]
    · intro k hk
      have hk1 := h (k + 1) (by simp; omega)
      simp only [List.getD_cons_succ] at hk1
      simp only [mergeStep]
      rw [Nat.add_assoc, Nat.add_comm 1 k]
      exact hk1

theorem mergeLoop_file (w : World) (parts : List filePart)
    (h : ∀ k, k < parts.length →
      (parts.getD k filePart.zero).Data.length ≤ w.write k (parts.getD k filePart.zero).Data) :
    (mergeLoop w parts).file = (parts.map fun s => s.Data).flatten := by
  unfold mergeLoop
  rw [mergeLoop_file_foldl w parts _ (by simpa using h)]
  simp

/-- Slices of `F` taken along a valid partition concatenate to `F`. -/
theorem flatten_slices (F : List Byte) (parts jobs : List filePart)
    (hlen : parts.length = jobs.length)
    (hvalid : ValidPartition jobs (F.length : Int))
    (hslots : ∀ i, i < parts.length →
      (parts.getD i filePart.zero).Data =
        (F.drop (jobs.getD i filePart.zero).From.toNat).take
          ((jobs.getD i filePart.zero).To - (jobs.getD i filePart.zero).From + 1).toNat) :
    (parts.map fun s => s.Data).flatten = F := by
  obtain ⟨hpos, h0, hlast, hnext, hbound⟩ := hvalid
  have key : ∀ k, k ≤ parts.length →
      ((parts.take k).map fun s => s.Data).flatten =
        F.take (if k = 0 then 0 else ((jobs.getD (k - 1) filePart.zero).To + 1).toNat) := by
    intro k
    induction k with
    | zero => intro _; simp
    | succ k ih =>
      intro hk
      have hk' : k < parts.length := by omega
      have hkj : k < jobs.length := by omega
      rw [List.take_succ, List.map_append, List.flatten_append, ih (by omega)]
      have hget : parts[k]? = some (parts.getD k filePart.zero) := by
        rw [List.getD_eq_getElem?_getD, List.getElem?_eq_getElem hk']
        rfl
      rw [hget]
      simp only [Option.toList, List.map_cons, List.map_nil, List.flatten_cons, List.flatten_nil,
        List.append_nil]
      rw [hslots k hk']
      obtain ⟨hb0, hb1, hb2⟩ := hbound k hkj
      have hstart : (if k = 0 then 0 else ((jobs.getD (k - 1) filePart.zero).To + 1).toNat)
          = (jobs.getD k filePart.zero).From.toNat := by
        rcases Nat.eq_zero_or_pos k with hz | hz
        · subst hz
          rw [if_pos rfl, h0]
          rfl
        · have hne : k ≠ 0 := by omega
          simp only [hne, if_false]
          rw [hnext k hkj hz]
      rw [hstart, ← List.take_add]
      congr 1
      simp only [Nat.succ_ne_zero, if_false, Nat.add_sub_cancel]
      omega
  have hfull := key parts.length (le_refl _)
  rw [List.take_length] at hfull
  rw [hfull]
  have hne : parts.length ≠ 0 := by omega
  simp only [hne, if_false]
  rw [hlen, hlast]
  have : ((F.length : Int) - 1 + 1).toNat = F.length := by omega
  rw [this, List.take_length]

/-! ## The fetch phase -/

theorem downloadPart_of_rejected (w : World) (d : FileDownloader) (c : filePart)
    (h : acceptedBody w d.url c = none) :
    ∃ e, downloadPart w d c = (.err e, d) := by
  unfold acceptedBody at h
  unfold downloadPart
  cases hreq : w.newRequest "GET" d.url with
  | false => exact ⟨.newRequest, by simp⟩
  | true =>
    cases hget : w.get c with
    | error e => exact ⟨e, by simp⟩
    | ok resp =>
      by_cases hst : resp.StatusCode > 299
      · exact ⟨.partStatus resp.StatusCode, by simp [hst]⟩
      · cases hbody : resp.Body with
        | error e => exact ⟨e, by simp [hst, hbody]⟩
        | ok bs =>
          by_cases hl : (bs.length : Int) = c.To - c.From + 1
          · simp [hreq, hget, hst, hbody, hl] at h
          · exact ⟨.lengthMismatch, by simp [hst, hbody, hl]⟩

theorem downloadPart_of_accepted (w : World) (d : FileDownloader) (c : filePart)
    (bs : List Byte) (h : acceptedBody w d.url c = some bs)
    (hidx : 0 ≤ c.Index ∧ c.Index < (d.doneFilePart.length : Int)) :
    (bs.length : Int) = c.To - c.From + 1 ∧
    downloadPart w d c =
      (.ok (), { d with doneFilePart := d.doneFilePart.set c.Index.toNat { c with Data := bs } }) := by
  unfold acceptedBody at h
  unfold downloadPart
  cases hreq : w.newRequest "GET" d.url with
  | false => simp [hreq] at h
  | true =>
    cases hget : w.get c with
    | error e => simp [hreq, hget] at h
    | ok resp =>
      by_cases hst : resp.StatusCode > 299
      · simp [hreq, hget, hst] at h
      · cases hbody : resp.Body with
        | error e => simp [hreq, hget, hst, hbody] at h
        | ok bs1 =>
          by_cases hl : (bs1.length : Int) = c.To - c.From + 1
          · simp [hreq, hget, hst, hbody, hl] at h
            subst h
            exact ⟨hl, by simp [hst, hbody, hl, hidx]⟩
          · simp [hreq, hget, hst, hbody, hl] at h

/-- For a part whose index is a slot, `downloadPart` returns success exactly
when the fetch is accepted. -/
theorem downloadPart_ok_iff (w : World) (d : FileDownloader) (c : filePart)
    (hidx : 0 ≤ c.Index ∧ c.Index < (d.doneFilePart.length : Int)) :
    (downloadPart w d c).1 = .ok () ↔ (acceptedBody w d.url c).isSome = true := by
  cases h : acceptedBody w d.url c with
  | none =>
    obtain ⟨e, he⟩ := downloadPart_of_rejected w d c h
    simp [he]
  | some bs =>
    rw [(downloadPart_of_accepted w d c bs h hidx).2]
    simp

theorem fetchAll_cons_ok (w : World) (d d1 : FileDownloader) (c : filePart)
    (rest : List filePart) (h : fetchStep w (.ok d) c = .ok d1) :
    fetchAll w d (c :: rest) = fetchAll w d1 rest := by
  unfold fetchAll
  rw [List.foldl_cons, h]

/-- The state after the fetch phase, for any completion order without
repetition: a slot whose job ran holds `storeSlot`, every other slot is
untouched. -/
theorem fetchAll_planned (w : World) (total : Int) (n : Nat) (order : List Nat) :
    ∀ d : FileDownloader, d.doneFilePart.length = n → order.Nodup → (∀ i ∈ order, i < n) →
    ∃ D : List filePart,
      fetchAll w d (order.filterMap fun i => (planJobs total (n : Int))[i]?)
        = .ok { d with doneFilePart := D } ∧
      D.length = n ∧
      ∀ j, j < n → D.getD j filePart.zero =
        if j ∈ order then
          storeSlot w d.url (plannedJob total n j) (d.doneFilePart.getD j filePart.zero)
        else d.doneFilePart.getD j filePart.zero := by
  induction order with
  | nil =>
    intro d hlen _ _
    exact ⟨d.doneFilePart, by simp [fetchAll], hlen, by simp⟩
  | cons i rest ih =>
    intro d hlen hnd hlt
    have hi : i < n := hlt i (List.mem_cons_self _ _)
    have hirest : i ∉ rest := (List.nodup_cons.mp hnd).1
    have hndrest : rest.Nodup := (List.nodup_cons.mp hnd).2
    have hltrest : ∀ k ∈ rest, k < n := fun k hk => hlt k (List.mem_cons_of_mem _ hk)
    have hsched : ((i :: rest).filterMap fun k => (planJobs total (n : Int))[k]?)
        = plannedJob total n i :: rest.filterMap fun k => (planJobs total (n : Int))[k]? := by
      rw [List.filterMap_cons, planJobs_getElem? total n i hi]
    rw [hsched]
    have hidx : 0 ≤ (plannedJob total n i).Index ∧
        (plannedJob total n i).Index < (d.doneFilePart.length : Int) := by
      simp only [plannedJob]; omega
    have htoNat : (plannedJob total n i).Index.toNat = i := by
      simp [plannedJob]
    cases hacc : acceptedBody w d.url (plannedJob total n i) with
    | none =>
      obtain ⟨e, he⟩ := downloadPart_of_rejected w d _ hacc
      have hstep : fetchStep w (.ok d) (plannedJob total n i) = .ok d := by
        simp [fetchStep, he]
      rw [fetchAll_cons_ok w d d _ _ hstep]
      obtain ⟨D, hD, hDlen, hDj⟩ := ih d hlen hndrest hltrest
      refine ⟨D, hD, hDlen, ?_⟩
      intro j hj
      rw [hDj j hj]
      by_cases hji : j = i
      · subst hji
        simp [hirest, storeSlot, hacc]
      · simp [hji]
    | some bs =>
      obtain ⟨_, hdl⟩ := downloadPart_of_accepted w d _ bs hacc hidx
      rw [htoNat] at hdl
      have hstep : fetchStep w (.ok d) (plannedJob total n i) =
          .ok { d with doneFilePart :=
            d.doneFilePart.set i { plannedJob total n i with Data := bs } } := by
        simp [fetchStep, hdl]
      rw [fetchAll_cons_ok w d _ _ _ hstep]
      obtain ⟨D, hD, hDlen, hDj⟩ := ih
        { d with doneFilePart := d.doneFilePart.set i { plannedJob total n i with Data := bs } }
        (by simp [hlen]) hndrest hltrest
      refine ⟨D, hD, hDlen, ?_⟩
      intro j hj
      rw [hDj j hj]
      by_cases hji : j = i
      · subst hji
        have hjl : j < d.doneFilePart.length := by omega
        simp [hirest, storeSlot, hacc, List.getD_eq_getElem?_getD, List.getElem?_set, hjl]
      · have hij : ¬ i = j := fun h => hji h.symm
        simp [hji, List.getD_eq_getElem?_getD, List.getElem?_set, hij]

/-- After all jobs have run on a fresh `doneFilePart`, in any order, slot `j`
holds `storeSlot` of the `j`-th planned job. -/
theorem fetchAll_fresh (w : World) (total : Int) (n : Nat) (order : List Nat)
    (d : FileDownloader) (hfresh : d.doneFilePart = List.replicate n filePart.zero)
    (horder : order.Perm (List.range n)) :
    fetchAll w d (order.filterMap fun i => (planJobs total (n : Int))[i]?)
      = .ok { d with doneFilePart :=
          (List.range n).map fun j => storeSlot w d.url (plannedJob total n j) filePart.zero } := by
  have hnd : order.Nodup := horder.nodup_iff.mpr (List.nodup_range n)
  have hlt : ∀ i ∈ order, i < n := fun i hi => List.mem_range.mp (horder.mem_iff.mp hi)
  obtain ⟨D, hD, hDlen, hDj⟩ := fetchAll_planned w total n order d (by simp [hfresh]) hnd hlt
  rw [hD]
  congr 2
  apply List.ext_getElem?
  intro j
  by_cases hj : j < n
  · have h1 := hDj j hj
    have hmem : j ∈ order := horder.mem_iff.mpr (List.mem_range.mpr hj)
    rw [List.getD_eq_getElem?_getD, List.getElem?_eq_getElem (by omega)] at h1
    simp only [Option.getD_some, hmem, if_true] at h1
    rw [List.getElem?_eq_getElem (by omega), h1, List.getElem?_map, List.getElem?_range hj]
    simp [hfresh, List.getD_eq_getElem?_getD, hj]
  · rw [List.getElem?_eq_none (by omega), List.getElem?_eq_none (by simp; omega)]

theorem writtenSlots_sublist (w : World) (sched : List filePart) :
    ∀ d : FileDownloader, (writtenSlots w d sched).Sublist (sched.map fun c => c.Index) := by
  induction sched with
  | nil => intro d; simp [writtenSlots]
  | cons c rest ih =>
    intro d
    unfold writtenSlots
    rcases hdl : downloadPart w d c with ⟨r, d1⟩
    cases r with
    | ok u => simpa using (ih d1).cons₂ c.Index
    | err e => simpa using (ih d1).cons c.Index
    | crash => simp

theorem acceptedBody_length (w : World) (url : String) (c : filePart) (bs : List Byte)
    (h : acceptedBody w url c = some bs) : (bs.length : Int) = c.To - c.From + 1 := by
  unfold acceptedBody at h
  cases hreq : w.newRequest "GET" url with
  | false => simp [hreq] at h
  | true =>
    cases hget : w.get c with
    | error e => simp [hreq, hget] at h
    | ok resp =>
      by_cases hst : resp.StatusCode > 299
      · simp [hreq, hget, hst] at h
      · cases hbody : resp.Body with
        | error e => simp [hreq, hget, hst, hbody] at h
        | ok bs1 =>
          by_cases hl : (bs1.length : Int) = c.To - c.From + 1
          · simp [hreq, hget, hst, hbody, hl] at h
            subst h
            exact hl
          · simp [hreq, hget, hst, hbody, hl] at h

/-- The data of a slot after the fetch phase, read off `downloadPart`. -/
theorem storeSlot_data (w : World) (d : FileDownloader) (c : filePart)
    (hidx : 0 ≤ c.Index ∧ c.Index < (d.doneFilePart.length : Int)) :
    (storeSlot w d.url c filePart.zero).Data =
      if (downloadPart w d c).1 = .ok () then
        ((downloadPart w d c).2.doneFilePart.getD c.Index.toNat filePart.zero).Data
      else [] := by
  unfold storeSlot
  cases h : acceptedBody w d.url c with
  | none =>
    obtain ⟨e, he⟩ := downloadPart_of_rejected w d c h
    simp [he, filePart.zero]
  | some bs =>
    have hlt : c.Index.toNat < d.doneFilePart.length := by omega
    rw [(downloadPart_of_accepted w d c bs h hidx).2]
    simp [List.getD_eq_getElem?_getD, List.getElem?_set, hlt]

theorem flatten_map_filter {α β : Type} (l : List α) (p : α → Bool) (g h : α → List β)
    (hh : ∀ c ∈ l, h c = if p c = true then g c else []) :
    (l.map h).flatten = ((l.filter p).map g).flatten := by
  induction l with
  | nil => simp
  | cons a l ih =>
    have ha := hh a (List.mem_cons_self _ _)
    have hl := ih fun c hc => hh c (List.mem_cons_of_mem _ hc)
    cases hp : p a with
    | false => simp [List.filter_cons, hp, ha, hl]
    | true => simp [List.filter_cons, hp, ha, hl]

theorem getHeaderInfo_ok (w : World) (d : FileDownloader) (t : Int)
    (h : (getHeaderInfo w d).1 = .ok t) :
    ∃ name, getHeaderInfo w d = (.ok t, { d with outputFileName := name }) := by
  unfold getHeaderInfo at h ⊢
  cases hreq : w.newRequest "HEAD" d.url with
  | false => simp [hreq] at h
  | true =>
    cases hhead : w.head with
    | error e => simp [hreq, hhead] at h
    | ok resp =>
      by_cases hst : resp.StatusCode > 299
      · simp [hreq, hhead, hst] at h
      · by_cases hr : HeaderGet resp.Header "Accept-Ranges" = "bytes"
        · cases hinfo : parseFileInfo w resp with
          | error e => simp [hreq, hhead, hst, hr, hinfo] at h
          | ok name =>
            cases hat : w.atoi (HeaderGet resp.Header "Content-Length") with
            | error e => simp [hreq, hhead, hst, hr, hinfo, hat] at h
            | ok n =>
              simp [hreq, hhead, hst, hr, hinfo, hat] at h
              subst h
              by_cases hname : d.outputFileName = ""
              · exact ⟨name, by simp [hst, hr, hinfo, hat, hname]⟩
              · exact ⟨d.outputFileName, by simp [hst, hr, hinfo, hat, hname]⟩
        · simp [hreq, hhead, hst, hr] at h

/-- When some planned part is rejected and every rejected part has a non-empty
range, the bytes stored in all slots are fewer than the total size. -/
theorem stored_sum_lt (w : World) (url : String) (total : Int) (n : Nat) (hn : 1 ≤ n)
    (hfail : ∃ j, j < n ∧ acceptedBody w url (plannedJob total n j) = none)
    (hne : ∀ j, j < n → acceptedBody w url (plannedJob total n j) = none →
      (plannedJob total n j).From ≤ (plannedJob total n j).To) :
    (((List.range n).map fun j => storeSlot w url (plannedJob total n j) filePart.zero).map
      fun s => (s.Data.length : Int)).sum < total := by
  have htotal := planJobs_len_sum total n hn
  rw [planJobs_eq, List.map_map] at htotal
  rw [List.map_map]
  conv_rhs => rw [← htotal]
  apply List.sum_lt_sum
  · intro j hj
    have hj' : j < n := List.mem_range.mp hj
    simp only [Function.comp_def, storeSlot]
    cases hacc : acceptedBody w url (plannedJob total n j) with
    | none =>
      have := hne j hj' hacc
      simp only [filePart.zero, List.length_nil, filePart.len]
      push_cast
      omega
    | some bs =>
      have := acceptedBody_length w url _ bs hacc
      simp only [filePart.len]
      omega
  · obtain ⟨j, hj, hacc⟩ := hfail
    refine ⟨j, List.mem_range.mpr hj, ?_⟩
    have := hne j hj hacc
    simp only [Function.comp_def, storeSlot, hacc, filePart.zero, List.length_nil, filePart.len]
    push_cast
    omega

theorem sched_eq_map (total : Int) (n : Nat) (order : List Nat) (hlt : ∀ i ∈ order, i < n) :
    (order.filterMap fun i => (planJobs total (n : Int))[i]?) = order.map (plannedJob total n) := by
  induction order with
  | nil => simp
  | cons i rest ih =>
    have hi : i < n := hlt i (List.mem_cons_self _ _)
    rw [List.filterMap_cons, planJobs_getElem? total n i hi, List.map_cons,
      ih fun k hk => hlt k (List.mem_cons_of_mem _ hk)]

theorem mergeFileParts_handed (w : World) (d : FileDownloader)
    (hcreate : w.create (w.join d.outputDir d.outputFileName) = true) :
    (mergeFileParts w d).handed = some (mergeLoop w d.doneFilePart).handed := by
  unfold mergeFileParts
  simp only [hcreate]
  by_cases hs : (mergeLoop w d.doneFilePart).totalSize = d.fileSize
  · by_cases hm : d.md5 = ""
    · simp [hs, hm]
    · by_cases hd : EncodeToString (w.sha256 (mergeLoop w d.doneFilePart).hashed) = d.md5
      · simp [hs, hm, hd]
      · simp [hs, hm, hd]
  · simp [hs]

theorem mergeFileParts_file (w : World) (d : FileDownloader)
    (hcreate : w.create (w.join d.outputDir d.outputFileName) = true) :
    (mergeFileParts w d).file = some (mergeLoop w d.doneFilePart).file := by
  unfold mergeFileParts
  simp only [hcreate]
  by_cases hs : (mergeLoop w d.doneFilePart).totalSize = d.fileSize
  · by_cases hm : d.md5 = ""
    · simp [hs, hm]
    · by_cases hd : EncodeToString (w.sha256 (mergeLoop w d.doneFilePart).hashed) = d.md5
      · simp [hs, hm, hd]
      · simp [hs, hm, hd]
  · simp [hs]

/-! ## The slots of a downloader -/

/-- The constructor allocates one slot per part. -/
theorem NewFileDownloader_slots (w : World) (url outputFileName outputDir md5 : String)
    (totalPart : Int) (d : FileDownloader)
    (h : NewFileDownloader w url outputFileName outputDir totalPart md5 = .ok d) :
    (d.doneFilePart.length : Int) = d.totalPart ∧
    d.doneFilePart = List.replicate totalPart.toNat filePart.zero ∧
    d.totalPart = totalPart ∧ d.url = url ∧ d.fileSize = 0 := by
  unfold NewFileDownloader at h
  by_cases hneg : totalPart < 0
  · simp [hneg] at h
  · simp only [hneg, if_false, Outcome.ok.injEq] at h
    subst h
    simp only [List.length_replicate, and_self, and_true]
    omega

/-- The method `downloadPart` keeps the number of slots and every field other
than `doneFilePart`. -/
theorem downloadPart_keeps (w : World) (d : FileDownloader) (c : filePart) :
    (downloadPart w d c).2.doneFilePart.length = d.doneFilePart.length ∧
    (downloadPart w d c).2.totalPart = d.totalPart ∧
    (downloadPart w d c).2.url = d.url ∧
    (downloadPart w d c).2.fileSize = d.fileSize := by
  cases h : acceptedBody w d.url c with
  | none =>
    obtain ⟨e, he⟩ := downloadPart_of_rejected w d c h
    simp [he]
  | some bs =>
    by_cases hidx : 0 ≤ c.Index ∧ c.Index < (d.doneFilePart.length : Int)
    · rw [(downloadPart_of_accepted w d c bs h hidx).2]
      simp
    · unfold downloadPart
      split
      · simp
      · split
        · simp
        · split
          · simp
          · split
            · simp
            · split
              · simp
              · simp [hidx]

/-- A run against `sampleWorld`: both parts are fetched, in the order part 1,
part 0, and the merged file is `sampleFile`. -/
theorem Run_sample :
    (Run sampleWorld sampleFresh [1, 0]).result = .ok () ∧
    (Run sampleWorld sampleFresh [1, 0]).file = some sampleFile ∧
    (Run sampleWorld sampleFresh [1, 0]).state.fileSize = 4 ∧
    (Run sampleWorld sampleFresh [1, 0]).state.outputFileName = "f.bin" := by
  decide

/-! ## The planned ranges -/

/-- C1 (evaluation of the code at the failing input): for `totalSize = 2` and
`partCount = 2` the loop of `Run` plans the ranges `[0,1]` and `[2,1]`; the
last range is empty and starts behind the end of the file, so the plan is not a
valid partition of `[0,1]`.  For `totalSize = 3`, `partCount = 3` the second
range `[2,3]` ends behind the last byte. -/
theorem C1_plan_not_partition_at_two_two :
    planJobs 2 2 = [⟨0, 0, 1, []⟩, ⟨1, 2, 1, []⟩] ∧
    ¬ ValidPartition (planJobs 2 2) 2 ∧
    ranges (planJobs 3 3) = [(0, 1), (2, 3), (4, 2)] ∧
    ¬ ValidPartition (planJobs 3 3) 3 := by
  decide

/-- C2 (evaluation of the code at the failing input): for `totalSize = 1000`
and `partCount = 4` the loop of `Run` plans `[0,250],[251,501],[502,752],[753,999]`,
of lengths 251, 251, 251 and 247, where `eachSize = 250`; for
`totalSize = partCount = 2` the lengths are 2 and 0. -/
theorem C2_plan_lengths_at_1000_4 :
    ranges (planJobs 1000 4) = [(0, 250), (251, 501), (502, 752), (753, 999)] ∧
    (planJobs 1000 4).map filePart.len = [251, 251, 251, 247] ∧
    Int.tdiv 1000 4 = 250 ∧
    (planJobs 2 2).map filePart.len = [2, 0] := by
  decide

/-- C9: for every `totalSize > 0` and every `partCount ≥ 1` the signed lengths
`To - From + 1` of the ranges planned in `Run` add up to `totalSize`. -/
theorem C9_plan_length_sum (totalSize partCount : Int) (_hT : 0 < totalSize)
    (hP : 1 ≤ partCount) :
    ((planJobs totalSize partCount).map fun c => c.To - c.From + 1).sum = totalSize := by
  obtain ⟨n, rfl⟩ := Int.eq_ofNat_of_zero_le (by omega : 0 ≤ partCount)
  exact planJobs_len_sum totalSize n (by omega)

/-- C9 at `totalSize = 7`, `partCount = 3`. -/
theorem C9_plan_length_sum_witness :
    (0 : Int) < 7 ∧ (1 : Int) ≤ 3 ∧
      ((planJobs 7 3).map fun c => c.To - c.From + 1).sum = 7 :=
  ⟨by decide, by decide, C9_plan_length_sum 7 3 (by decide) (by decide)⟩

/-- C10: when `partCount ≥ 1` and `partCount * partCount ≤ totalSize`, the
ranges planned in `Run` are `partCount` ranges forming a valid partition of
`[0, totalSize - 1]`; each of the first `partCount - 1` ranges has length
`totalSize / partCount + 1`, and the last range is non-empty and ends at
`totalSize - 1`. -/
theorem C10_plan_valid_when_square_fits (totalSize partCount : Int) (hP : 1 ≤ partCount)
    (hsq : partCount * partCount ≤ totalSize) :
    ((planJobs totalSize partCount).length : Int) = partCount ∧
    ValidPartition (planJobs totalSize partCount) totalSize ∧
    (∀ i, i + 1 < (planJobs totalSize partCount).length →
      ((planJobs totalSize partCount).getD i filePart.zero).To
        - ((planJobs totalSize partCount).getD i filePart.zero).From + 1
        = totalSize / partCount + 1) ∧
    ((planJobs totalSize partCount).getD ((planJobs totalSize partCount).length - 1)
        filePart.zero).From
      ≤ ((planJobs totalSize partCount).getD ((planJobs totalSize partCount).length - 1)
        filePart.zero).To ∧
    ((planJobs totalSize partCount).getD ((planJobs totalSize partCount).length - 1)
        filePart.zero).To = totalSize - 1 := by
  obtain ⟨n, rfl⟩ := Int.eq_ofNat_of_zero_le (by omega : 0 ≤ partCount)
  have hn : 1 ≤ n := by omega
  obtain ⟨hq, hlast⟩ := plan_bounds totalSize n hn hsq
  have hn0 : (0 : Int) < (n : Int) := by omega
  have htot : 0 ≤ totalSize := le_trans (mul_nonneg hn0.le hn0.le) hsq
  have hdiv : Int.tdiv totalSize (n : Int) = totalSize / (n : Int) :=
    Int.tdiv_eq_ediv htot hn0.le
  have hq1 : (0 : Int) ≤ Int.tdiv totalSize (n : Int) + 1 := by omega
  have hlastFrom : (plannedJob totalSize n (n - 1)).From
      = ((n : Int) - 1) * (Int.tdiv totalSize (n : Int) + 1) := by
    simp only [plannedJob]
    have : ((n - 1 : Nat) : Int) = (n : Int) - 1 := by omega
    rw [this]
  have hlastTo : (plannedJob totalSize n (n - 1)).To = totalSize - 1 := by
    have : ¬ (n - 1 + 1 < n) := by omega
    simp only [plannedJob, this, if_false]
  have hbound : ∀ i, i < n →
      0 ≤ (plannedJob totalSize n i).From ∧
      (plannedJob totalSize n i).From ≤ (plannedJob totalSize n i).To ∧
      (plannedJob totalSize n i).To ≤ totalSize - 1 := by
    intro i hi
    have hi0 : (0 : Int) ≤ (i : Int) := by omega
    have hmono : (i : Int) * (Int.tdiv totalSize (n : Int) + 1)
        ≤ ((n : Int) - 1) * (Int.tdiv totalSize (n : Int) + 1) :=
      mul_le_mul_of_nonneg_right (by omega) hq1
    have hfrom : 0 ≤ (i : Int) * (Int.tdiv totalSize (n : Int) + 1) := mul_nonneg hi0 hq1
    by_cases hin : i + 1 < n
    · have hmono2 : ((i : Int) + 1) * (Int.tdiv totalSize (n : Int) + 1)
          ≤ ((n : Int) - 1) * (Int.tdiv totalSize (n : Int) + 1) :=
        mul_le_mul_of_nonneg_right (by omega) hq1
      have hexp : ((i : Int) + 1) * (Int.tdiv totalSize (n : Int) + 1)
          = (i : Int) * (Int.tdiv totalSize (n : Int) + 1) + Int.tdiv totalSize (n : Int) + 1 := by
        ring
      simp only [plannedJob, hin, if_true]
      refine ⟨hfrom, by omega, by omega⟩
    · simp only [plannedJob, hin, if_false]
      refine ⟨hfrom, by omega, le_refl _⟩
  unfold ValidPartition
  rw [planJobs_length]
  refine ⟨rfl, ⟨by omega, ?_, ?_, ?_, ?_⟩, ?_, ?_, ?_⟩
  · rw [planJobs_getD totalSize n 0 (by omega)]
    simp [plannedJob]
  · rw [planJobs_getD totalSize n (n - 1) (by omega)]
    exact hlastTo
  · intro i hi h1
    rw [planJobs_getD totalSize n i hi, planJobs_getD totalSize n (i - 1) (by omega)]
    have hprev : i - 1 + 1 < n := by omega
    have hc : ((i - 1 : Nat) : Int) = (i : Int) - 1 := by omega
    simp only [plannedJob, hprev, if_true, hc]
    ring
  · intro i hi
    rw [planJobs_getD totalSize n i hi]
    exact hbound i hi
  · intro i hi
    rw [planJobs_getD totalSize n i (by omega), ← hdiv]
    exact plannedJob_len_inner totalSize n i hi
  · rw [planJobs_getD totalSize n (n - 1) (by omega), hlastFrom, hlastTo]
    exact hlast
  · rw [planJobs_getD totalSize n (n - 1) (by omega)]
    exact hlastTo

/-- C10 at `totalSize = 10`, `partCount = 3`: the ranges are `[0,3]`, `[4,7]`,
`[8,9]`. -/
theorem C10_plan_valid_when_square_fits_witness :
    (1 : Int) ≤ 3 ∧ (3 : Int) * 3 ≤ 10 ∧
      ranges (planJobs 10 3) = [(0, 3), (4, 7), (8, 9)] ∧
      ValidPartition (planJobs 10 3) 10 :=
  ⟨by decide, by decide, by decide,
    (C10_plan_valid_when_square_fits 10 3 (by decide) (by decide)).2.1⟩

/-! ## Merging -/

/-- C5: with the output file created, `mergeFileParts` returns success exactly
when the lengths of all slots add up to `fileSize` and the expected digest is
empty or equals the lower-case hex encoding of the hash of the slots' data
concatenated in slot order; it returns the incomplete-file error whenever the
sizes differ, whatever the expected digest, and the integrity-mismatch error
when the sizes agree and a non-empty expected digest differs. -/
theorem C5_merge_result (w : World) (d : FileDownloader)
    (hcreate : w.create (w.join d.outputDir d.outputFileName) = true) :
    ((mergeFileParts w d).1 = .ok () ↔
      (d.doneFilePart.map fun s => (s.Data.length : Int)).sum = d.fileSize ∧
      (d.md5 = "" ∨
        EncodeToString (w.sha256 (d.doneFilePart.map fun s => s.Data).flatten) = d.md5)) ∧
    ((d.doneFilePart.map fun s => (s.Data.length : Int)).sum ≠ d.fileSize →
      (mergeFileParts w d).1 = .err .incompleteFile) ∧
    ((d.doneFilePart.map fun s => (s.Data.length : Int)).sum = d.fileSize → d.md5 ≠ "" →
      EncodeToString (w.sha256 (d.doneFilePart.map fun s => s.Data).flatten) ≠ d.md5 →
      (mergeFileParts w d).1 = .err .integrityMismatch) := by
  unfold mergeFileParts
  simp only [hcreate, mergeLoop_totalSize, mergeLoop_hashed]
  refine ⟨?_, ?_, ?_⟩
  · by_cases hs : (d.doneFilePart.map fun s => (s.Data.length : Int)).sum = d.fileSize
    · by_cases hm : d.md5 = ""
      · simp [hs, hm]
      · by_cases hd :
          EncodeToString (w.sha256 (d.doneFilePart.map fun s => s.Data).flatten) = d.md5
        · simp [hs, hm, hd]
        · simp [hs, hm, hd]
    · simp [hs]
  · intro hs
    simp [hs]
  · intro hs hm hd
    simp [hs, hm, hd]

/-- C5 on `sampleDone`: the sizes agree and the digest `0a14` matches, so the
merge succeeds. -/
theorem C5_merge_result_witness :
    sampleWorld.create (sampleWorld.join sampleDone.outputDir sampleDone.outputFileName) = true ∧
    (mergeFileParts sampleWorld sampleDone).1 = .ok () :=
  ⟨by decide, (C5_merge_result sampleWorld sampleDone (by decide)).1.mpr (by decide)⟩

/-- C4 (counterexample): `sampleDone` holds in its two slots exactly the bytes
of the planned ranges `[0,2]` and `[3,3]` of the four-byte file `sampleFile`,
and the planned ranges are a valid partition.  On `fullDiskWorld`, where every
`mergedFile.Write` fails, `mergeFileParts` still counts 4 bytes and returns
success, but the output file is empty and not `sampleFile`. -/
theorem C4_failed_write_loses_bytes :
    sampleFile ≠ [] ∧
    sampleDone.fileSize = (sampleFile.length : Int) ∧
    ValidPartition (planJobs (sampleFile.length : Int) 2) (sampleFile.length : Int) ∧
    sampleDone.doneFilePart.length = (planJobs (sampleFile.length : Int) 2).length ∧
    (∀ i, i < sampleDone.doneFilePart.length →
      (sampleDone.doneFilePart.getD i filePart.zero).Data =
        (sampleFile.drop
            ((planJobs (sampleFile.length : Int) 2).getD i filePart.zero).From.toNat).take
          (((planJobs (sampleFile.length : Int) 2).getD i filePart.zero).To
            - ((planJobs (sampleFile.length : Int) 2).getD i filePart.zero).From + 1).toNat) ∧
    (mergeFileParts fullDiskWorld sampleDone).result = .ok () ∧
    (mergeLoop fullDiskWorld sampleDone.doneFilePart).totalSize = 4 ∧
    (mergeFileParts fullDiskWorld sampleDone).file = some [] ∧
    (mergeFileParts fullDiskWorld sampleDone).file ≠ some sampleFile := by
  decide

/-- C4 (amended): let `F` be a non-empty source file, `fileSize = |F|`, and let
the ranges planned for `partCount ≥ 1` parts be a valid partition of
`[0, |F|-1]`.  If every slot of `doneFilePart` holds the bytes `F[From..To]` of
its planned range, then the bytes `mergeFileParts` hands to `mergedFile.Write`
are `F`, the total it counts is `fileSize` and the size check does not fail;
and if moreover every `mergedFile.Write` writes all the bytes handed to it, the
content of the output file is `F` and its length is `fileSize`. -/
theorem C4_merge_reproduces_source (w : World) (d : FileDownloader) (F : List Byte)
    (partCount : Int) (_hF : F ≠ []) (_hP : 1 ≤ partCount)
    (hsize : d.fileSize = (F.length : Int))
    (hvalid : ValidPartition (planJobs (F.length : Int) partCount) (F.length : Int))
    (hlen : d.doneFilePart.length = (planJobs (F.length : Int) partCount).length)
    (hslots : ∀ i, i < d.doneFilePart.length →
      (d.doneFilePart.getD i filePart.zero).Data =
        (F.drop ((planJobs (F.length : Int) partCount).getD i filePart.zero).From.toNat).take
          (((planJobs (F.length : Int) partCount).getD i filePart.zero).To
            - ((planJobs (F.length : Int) partCount).getD i filePart.zero).From + 1).toNat) :
    (mergeLoop w d.doneFilePart).handed = F ∧
    (mergeLoop w d.doneFilePart).totalSize = d.fileSize ∧
    (mergeFileParts w d).1 ≠ .err .incompleteFile ∧
    (w.create (w.join d.outputDir d.outputFileName) = true →
      (mergeFileParts w d).handed = some F) ∧
    ((∀ k, k < d.doneFilePart.length →
        (d.doneFilePart.getD k filePart.zero).Data.length
          ≤ w.write k (d.doneFilePart.getD k filePart.zero).Data) →
      (mergeLoop w d.doneFilePart).file = F ∧
      ((mergeLoop w d.doneFilePart).file.length : Int) = d.fileSize ∧
      (w.create (w.join d.outputDir d.outputFileName) = true →
        (mergeFileParts w d).file = some F)) := by
  have hflat := flatten_slices F d.doneFilePart _ hlen hvalid hslots
  have hsum : (d.doneFilePart.map fun s => (s.Data.length : Int)).sum = (F.length : Int) := by
    have h2 : ∀ l : List (List Byte), ((l.map fun x => (x.length : Int)).sum : Int)
        = (l.flatten.length : Int) := by
      intro l
      induction l with
      | nil => simp
      | cons a l ih => simp [ih]
    have h3 := h2 (d.doneFilePart.map fun s => s.Data)
    rw [hflat, List.map_map] at h3
    exact h3
  refine ⟨?_, ?_, ?_, ?_, ?_⟩
  · rw [mergeLoop_handed]; exact hflat
  · rw [mergeLoop_totalSize, hsize]; exact hsum
  · unfold mergeFileParts
    simp only [mergeLoop_totalSize, mergeLoop_hashed, hsum, hsize]
    by_cases hc : w.create (w.join d.outputDir d.outputFileName) = false
    · simp [hc]
    · by_cases hm : d.md5 = ""
      · simp [hc, hm]
      · by_cases hd : EncodeToString (w.sha256 (d.doneFilePart.map fun s => s.Data).flatten) = d.md5
        · simp [hc, hm, hd]
        · simp [hc, hm, hd]
  · intro hc
    rw [mergeFileParts_handed w d hc, mergeLoop_handed, hflat]
  · intro hw
    have hfile : (mergeLoop w d.doneFilePart).file = F := by
      rw [mergeLoop_file w _ hw]; exact hflat
    refine ⟨hfile, by rw [hfile, hsize], ?_⟩
    intro hc
    rw [mergeFileParts_file w d hc, hfile]

/-- C4 (amended) on `sampleFile` in two parts: the slots `[10,20,30]` and `[40]`
of `sampleDone` are the slices of the planned ranges `[0,2]` and `[3,3]`, every
write of `sampleWorld` is complete, and the output file is `sampleFile`. -/
theorem C4_merge_reproduces_source_witness :
    ranges (planJobs 4 2) = [(0, 2), (3, 3)] ∧
    (mergeLoop sampleWorld sampleDone.doneFilePart).handed = sampleFile ∧
    (mergeFileParts sampleWorld sampleDone).file = some sampleFile :=
  have h := C4_merge_reproduces_source sampleWorld sampleDone sampleFile 2 (by decide)
    (by decide) (by decide) (by decide) (by decide) (by decide)
  ⟨by decide, h.1, (h.2.2.2.2 (by decide)).2.2 (by decide)⟩

/-! ## Fetching one part, probing -/

/-- C6: for a part `c` with `0 ≤ c.Index < totalPart` and a response received
with status at most 299 whose body `bs` was read, `downloadPart` returns the
length-mismatch error exactly when `len(bs) ≠ c.To - c.From + 1`; in that case
the downloader is unchanged, and otherwise it returns success, slot `c.Index`
becomes `{c.Index, c.From, c.To, bs}` with `len(Data) = To - From + 1`, and
every other slot and every other field is unchanged. -/
theorem C6_downloadPart_length_gate (w : World) (d : FileDownloader) (c : filePart)
    (resp : Response) (bs : List Byte)
    (hreq : w.newRequest "GET" d.url = true)
    (hget : w.get c = .ok resp) (hstatus : resp.StatusCode ≤ 299) (hbody : resp.Body = .ok bs)
    (hslots : (d.doneFilePart.length : Int) = d.totalPart)
    (hidx : 0 ≤ c.Index ∧ c.Index < d.totalPart) :
    ((downloadPart w d c).1 = .err .lengthMismatch ↔ (bs.length : Int) ≠ c.To - c.From + 1) ∧
    ((bs.length : Int) ≠ c.To - c.From + 1 → (downloadPart w d c).2 = d) ∧
    ((bs.length : Int) = c.To - c.From + 1 →
      (downloadPart w d c).1 = .ok () ∧
      (downloadPart w d c).2 =
        { d with doneFilePart := d.doneFilePart.set c.Index.toNat ⟨c.Index, c.From, c.To, bs⟩ } ∧
      (downloadPart w d c).2.doneFilePart[c.Index.toNat]? = some ⟨c.Index, c.From, c.To, bs⟩ ∧
      ((⟨c.Index, c.From, c.To, bs⟩ : filePart).Data.length : Int) = c.To - c.From + 1 ∧
      (downloadPart w d c).2.doneFilePart.length = d.doneFilePart.length ∧
      ∀ j, j ≠ c.Index.toNat →
        (downloadPart w d c).2.doneFilePart[j]? = d.doneFilePart[j]?) := by
  have hst : ¬ resp.StatusCode > 299 := by omega
  have hin : 0 ≤ c.Index ∧ c.Index < (d.doneFilePart.length : Int) := by
    rw [hslots]; exact hidx
  have hlt : c.Index.toNat < d.doneFilePart.length := by omega
  by_cases hl : (bs.length : Int) = c.To - c.From + 1
  · have hrun : downloadPart w d c =
        (.ok (), { d with
          doneFilePart := d.doneFilePart.set c.Index.toNat ⟨c.Index, c.From, c.To, bs⟩ }) := by
      unfold downloadPart
      simp [hreq, hget, hst, hbody, hl, hin]
    rw [hrun]
    refine ⟨by simp [hl], fun h => absurd hl h, fun _ => ⟨rfl, rfl, ?_, hl, ?_, ?_⟩⟩
    · simp [List.getElem?_set, hlt]
    · simp
    · intro j hj
      simp [List.getElem?_set, Ne.symm hj]
  · have hrun : downloadPart w d c = (.err .lengthMismatch, d) := by
      unfold downloadPart
      simp [hreq, hget, hst, hbody, hl]
    rw [hrun]
    exact ⟨by simp [hl], fun _ => rfl, fun h => absurd h hl⟩

/-- C6 on `sampleFresh`: the part `[3,3]` with index 1 receives the one byte
`40` and is stored in slot 1, slot 0 staying empty. -/
theorem C6_downloadPart_length_gate_witness :
    (downloadPart sampleWorld sampleFresh ⟨1, 3, 3, []⟩).1 = .ok () ∧
    (downloadPart sampleWorld sampleFresh ⟨1, 3, 3, []⟩).2.doneFilePart
      = [filePart.zero, ⟨1, 3, 3, [40]⟩] :=
  have h := (C6_downloadPart_length_gate sampleWorld sampleFresh ⟨1, 3, 3, []⟩
    { StatusCode := 206, Header := [], Path := "/pub/f.bin", Body := .ok [40] } [40]
    (by decide) (by rfl) (by decide) (by rfl) (by decide) (by decide)).2.2 (by decide)
  ⟨h.1, by rw [h.2.1]; decide⟩

/-- C8: when the probe response has a status at most 299 and its Accept-Ranges
header is absent or differs from `bytes`, `getHeaderInfo` returns the
range-unsupported error and `Run` returns that error with no job handed to a
goroutine, the downloader (its `fileSize`, `outputFileName` and every slot of
`doneFilePart`) unchanged and no output file created. -/
theorem C8_probe_range_unsupported (w : World) (d : FileDownloader) (order : List Nat)
    (resp : Response)
    (hreq : w.newRequest "HEAD" d.url = true)
    (hhead : w.head = .ok resp) (hstatus : resp.StatusCode ≤ 299)
    (hranges : resp.Header.lookup "Accept-Ranges" = none ∨
      HeaderGet resp.Header "Accept-Ranges" ≠ "bytes") :
    getHeaderInfo w d = (.err .rangeUnsupported, d) ∧
    (Run w d order).result = .err .rangeUnsupported ∧
    (Run w d order).launched = [] ∧
    (Run w d order).state = d ∧
    (Run w d order).file = none := by
  have hst : ¬ resp.StatusCode > 299 := by omega
  have hne : HeaderGet resp.Header "Accept-Ranges" ≠ "bytes" := by
    rcases hranges with h | h
    · unfold HeaderGet
      rw [h]
      decide
    · exact h
  have hprobe : getHeaderInfo w d = (.err .rangeUnsupported, d) := by
    unfold getHeaderInfo
    simp [hreq, hhead, hst, hne]
  refine ⟨hprobe, ?_, ?_, ?_, ?_⟩ <;> simp [Run, hprobe]

/-- C8 on `noRangeWorld`, whose probe response has no Accept-Ranges header. -/
theorem C8_probe_range_unsupported_witness :
    (Run noRangeWorld sampleFresh [0, 1]).result = .err .rangeUnsupported ∧
    (Run noRangeWorld sampleFresh [0, 1]).launched = [] ∧
    (Run noRangeWorld sampleFresh [0, 1]).state = sampleFresh :=
  have h := C8_probe_range_unsupported noRangeWorld sampleFresh [0, 1]
    { StatusCode := 200, Header := [("Content-Length", ["4"])], Path := "/pub/f.bin",
      Body := .ok [] }
    (by decide) (by rfl) (by decide) (Or.inl (by decide))
  ⟨h.2.1, h.2.2.1, h.2.2.2.1⟩

/-! ## Completion order, missing parts -/

/-- C7: start from a fresh `doneFilePart` and let the goroutines of the
planned jobs complete in any order.  The downloader after the fetch phase is
the same for every two completion orders, every slot is written at most once,
and the bytes `mergeFileParts` hands to `mergedFile.Write`, in call order, are
the data of the successfully fetched parts concatenated in ascending `Index`
order; they are the content of the output file when every `mergedFile.Write`
writes all the bytes handed to it. -/
theorem C7_completion_order_irrelevant (w : World) (d : FileDownloader)
    (totalSize partCount : Int) (order1 order2 : List Nat) (hP : 1 ≤ partCount)
    (hfresh : d.doneFilePart = List.replicate partCount.toNat filePart.zero)
    (h1 : order1.Perm (List.range partCount.toNat))
    (h2 : order2.Perm (List.range partCount.toNat)) :
    fetchAll w d (order1.filterMap fun i => (planJobs totalSize partCount)[i]?) =
      fetchAll w d (order2.filterMap fun i => (planJobs totalSize partCount)[i]?) ∧
    (∀ k, (writtenSlots w d
      (order1.filterMap fun i => (planJobs totalSize partCount)[i]?)).count k ≤ 1) ∧
    ∃ d1, fetchAll w d (order1.filterMap fun i => (planJobs totalSize partCount)[i]?) = .ok d1 ∧
      (mergeLoop w d1.doneFilePart).handed =
        (((planJobs totalSize partCount).filter fun c =>
            decide ((downloadPart w d c).1 = .ok ())).map fun c =>
          ((downloadPart w d c).2.doneFilePart.getD c.Index.toNat filePart.zero).Data).flatten ∧
      (w.create (w.join d1.outputDir d1.outputFileName) = true →
        (mergeFileParts w d1).handed = some
          (((planJobs totalSize partCount).filter fun c =>
              decide ((downloadPart w d c).1 = .ok ())).map fun c =>
            ((downloadPart w d c).2.doneFilePart.getD c.Index.toNat filePart.zero).Data).flatten) ∧
      (w.create (w.join d1.outputDir d1.outputFileName) = true →
        (∀ k, k < d1.doneFilePart.length →
          (d1.doneFilePart.getD k filePart.zero).Data.length
            ≤ w.write k (d1.doneFilePart.getD k filePart.zero).Data) →
        (mergeFileParts w d1).file = some
          (((planJobs totalSize partCount).filter fun c =>
              decide ((downloadPart w d c).1 = .ok ())).map fun c =>
            ((downloadPart w d c).2.doneFilePart.getD c.Index.toNat filePart.zero).Data).flatten) := by
  obtain ⟨n, rfl⟩ := Int.eq_ofNat_of_zero_le (by omega : 0 ≤ partCount)
  simp only [Int.toNat_ofNat] at hfresh h1 h2
  have hf1 := fetchAll_fresh w totalSize n order1 d hfresh h1
  have hf2 := fetchAll_fresh w totalSize n order2 d hfresh h2
  have hlen : d.doneFilePart.length = n := by simp [hfresh]
  have hfile : (mergeLoop w ((List.range n).map fun j =>
        storeSlot w d.url (plannedJob totalSize n j) filePart.zero)).handed =
      (((planJobs totalSize (n : Int)).filter fun c =>
          decide ((downloadPart w d c).1 = .ok ())).map fun c =>
        ((downloadPart w d c).2.doneFilePart.getD c.Index.toNat filePart.zero).Data).flatten := by
    rw [mergeLoop_handed, planJobs_eq]
    simp only [List.map_map]
    have := flatten_map_filter ((List.range n).map (plannedJob totalSize n))
      (fun c => decide ((downloadPart w d c).1 = .ok ()))
      (fun c => ((downloadPart w d c).2.doneFilePart.getD c.Index.toNat filePart.zero).Data)
      (fun c => (storeSlot w d.url c filePart.zero).Data)
      (by
        intro c hc
        obtain ⟨j, hj, rfl⟩ := List.mem_map.mp hc
        have hj' : j < n := List.mem_range.mp hj
        have hidx : 0 ≤ (plannedJob totalSize n j).Index ∧
            (plannedJob totalSize n j).Index < (d.doneFilePart.length : Int) := by
          simp only [plannedJob]; omega
        show (storeSlot w d.url (plannedJob totalSize n j) filePart.zero).Data = _
        rw [storeSlot_data w d _ hidx]
        simp)
    rw [List.map_map] at this
    exact this
  refine ⟨by rw [hf1, hf2], ?_, _, hf1, hfile, ?_, ?_⟩
  · intro k
    have hlt : ∀ i ∈ order1, i < n := fun i hi => List.mem_range.mp (h1.mem_iff.mp hi)
    have hnd : order1.Nodup := h1.nodup_iff.mpr (List.nodup_range n)
    have hsub := writtenSlots_sublist w
      (order1.filterMap fun i => (planJobs totalSize (n : Int))[i]?) d
    rw [sched_eq_map totalSize n order1 hlt, List.map_map] at hsub
    have hnd2 : (order1.map ((fun c : filePart => c.Index) ∘ plannedJob totalSize n)).Nodup := by
      apply List.Nodup.map _ hnd
      intro a b hab
      simpa [plannedJob] using hab
    rw [sched_eq_map totalSize n order1 hlt]
    exact List.nodup_iff_count_le_one.mp (hsub.nodup hnd2) k
  · intro hc
    rw [mergeFileParts_handed w _ hc]
    exact congrArg some hfile
  · intro hc hw
    rw [mergeFileParts_file w _ hc, mergeLoop_file w _ hw, ← mergeLoop_handed w]
    exact congrArg some hfile

/-- C7 on `sampleFresh`: the orders `[0,1]` and `[1,0]` give the same state,
and the merged bytes are `sampleFile`. -/
theorem C7_completion_order_irrelevant_witness :
    fetchAll sampleWorld sampleFresh ([0, 1].filterMap fun i => (planJobs 4 2)[i]?) =
      fetchAll sampleWorld sampleFresh ([1, 0].filterMap fun i => (planJobs 4 2)[i]?) ∧
    fetchAll sampleWorld sampleFresh ([1, 0].filterMap fun i => (planJobs 4 2)[i]?) =
      .ok { sampleFresh with doneFilePart := [⟨0, 0, 2, [10, 20, 30]⟩, ⟨1, 3, 3, [40]⟩] } :=
  ⟨(C7_completion_order_irrelevant sampleWorld sampleFresh 4 2 [0, 1] [1, 0] (by decide)
      (by decide) (by decide) (by decide)).1, by decide⟩

/-- C3 (counterexample): a one-byte file fetched in two parts.  The probe
succeeds with `totalSize = 1`, the planned ranges are `[0,0]` and `[1,0]`,
the fetch of part 1 fails with the length-mismatch error and its slot stays
empty, yet `mergeFileParts` finds 1 byte written and `Run` returns success. -/
theorem C3_success_with_failed_part :
    NewFileDownloader tinyWorld "http://host/pub/t.bin" "" "/tmp" 2 "" = .ok tinyFresh ∧
    (getHeaderInfo tinyWorld tinyFresh).1 = .ok 1 ∧
    planJobs 1 2 = [⟨0, 0, 0, []⟩, ⟨1, 1, 0, []⟩] ∧
    (downloadPart tinyWorld tinyFresh ⟨1, 1, 0, []⟩).1 = .err .lengthMismatch ∧
    (Run tinyWorld tinyFresh [0, 1]).state.doneFilePart = [⟨0, 0, 0, [7]⟩, filePart.zero] ∧
    (mergeFileParts tinyWorld (Run tinyWorld tinyFresh [0, 1]).state).1 = .ok () ∧
    (Run tinyWorld tinyFresh [0, 1]).result = .ok () ∧
    (Run tinyWorld tinyFresh [0, 1]).result ≠ .err .incompleteFile := by
  decide

/-- C3 (amended): take a fresh downloader for `partCount ≥ 1` parts whose
probe returns `totalSize > 0`, and any completion order.  If the fetch of at
least one planned part fails and the planned range of every failed part is
non-empty (`From ≤ To`), then `Run` does not return success: it returns what
`mergeFileParts` returns, which is the incomplete-file error whenever the
output file can be created, and the error of creating it otherwise. -/
theorem C3_failed_nonempty_part_fails_merge (w : World)
    (url outputFileName outputDir md5 : String) (partCount totalSize : Int)
    (d : FileDownloader) (order : List Nat)
    (_hT : 0 < totalSize) (hP : 1 ≤ partCount)
    (hnew : NewFileDownloader w url outputFileName outputDir partCount md5 = .ok d)
    (hprobe : (getHeaderInfo w d).1 = .ok totalSize)
    (horder : order.Perm (List.range partCount.toNat))
    (hfail : ∃ c ∈ planJobs totalSize partCount, (downloadPart w d c).1 ≠ .ok ())
    (hnonempty : ∀ c ∈ planJobs totalSize partCount,
      (downloadPart w d c).1 ≠ .ok () → c.From ≤ c.To) :
    (Run w d order).result ≠ .ok () ∧
    (Run w d order).result = (mergeFileParts w (Run w d order).state).1 ∧
    ((Run w d order).result = .err .incompleteFile ∨
      (Run w d order).result = .err .createFile) ∧
    (w.create (w.join (Run w d order).state.outputDir (Run w d order).state.outputFileName) = true →
      (Run w d order).result = .err .incompleteFile) ∧
    (w.create (w.join (Run w d order).state.outputDir (Run w d order).state.outputFileName) = false →
      (Run w d order).result = .err .createFile) := by
  obtain ⟨n, rfl⟩ := Int.eq_ofNat_of_zero_le (by omega : 0 ≤ partCount)
  have hn : 1 ≤ n := by omega
  simp only [Int.toNat_ofNat] at horder
  -- the fresh downloader
  have hd : d.doneFilePart = List.replicate n filePart.zero ∧ d.totalPart = (n : Int) := by
    unfold NewFileDownloader at hnew
    have hneg : ¬ ((n : Int) < 0) := by omega
    simp only [hneg, if_false, Outcome.ok.injEq] at hnew
    subst hnew
    simp
  obtain ⟨hfresh, htp⟩ := hd
  have hlen : d.doneFilePart.length = n := by simp [hfresh]
  obtain ⟨name, hinfo⟩ := getHeaderInfo_ok w d totalSize hprobe
  -- the fetch phase
  obtain ⟨D, hD⟩ : ∃ D : List filePart, D = (List.range n).map
      (fun j => storeSlot w d.url (plannedJob totalSize n j) filePart.zero) := ⟨_, rfl⟩
  have hfetch : fetchAll w { d with outputFileName := name, fileSize := totalSize }
      (order.filterMap fun i => (planJobs totalSize (n : Int))[i]?) =
      .ok { d with outputFileName := name, fileSize := totalSize, doneFilePart := D } := by
    rw [hD]
    exact fetchAll_fresh w totalSize n order
      { d with outputFileName := name, fileSize := totalSize } hfresh horder
  -- failed parts, read off `acceptedBody`
  have hidx : ∀ j, j < n → 0 ≤ (plannedJob totalSize n j).Index ∧
      (plannedJob totalSize n j).Index < (d.doneFilePart.length : Int) := by
    intro j hj
    simp only [plannedJob]; omega
  have hrej : ∀ j, j < n → (acceptedBody w d.url (plannedJob totalSize n j) = none ↔
      (downloadPart w d (plannedJob totalSize n j)).1 ≠ .ok ()) := by
    intro j hj
    rw [Ne, downloadPart_ok_iff w d _ (hidx j hj)]
    cases acceptedBody w d.url (plannedJob totalSize n j) <;> simp
  have hmem : ∀ j, j < n → plannedJob totalSize n j ∈ planJobs totalSize (n : Int) := by
    intro j hj
    rw [planJobs_eq]
    exact List.mem_map.mpr ⟨j, List.mem_range.mpr hj, rfl⟩
  have hlt := stored_sum_lt w d.url totalSize n hn
    (by
      obtain ⟨c, hc, hcf⟩ := hfail
      rw [planJobs_eq] at hc
      obtain ⟨j, hj, rfl⟩ := List.mem_map.mp hc
      exact ⟨j, List.mem_range.mp hj, (hrej j (List.mem_range.mp hj)).mpr hcf⟩)
    (fun j hj hacc => hnonempty _ (hmem j hj) ((hrej j hj).mp hacc))
  rw [← hD] at hlt
  -- the run
  have hrun : Run w d order =
      { result := (mergeFileParts w
          { d with outputFileName := name, fileSize := totalSize, doneFilePart := D }).1
        state := { d with outputFileName := name, fileSize := totalSize, doneFilePart := D }
        launched := order.filterMap fun i => (planJobs totalSize (n : Int))[i]?
        file := (mergeFileParts w
          { d with outputFileName := name, fileSize := totalSize, doneFilePart := D }).file } := by
    unfold Run
    rw [hinfo]
    have hpos : ¬ (d.totalPart ≤ 0) := by omega
    simp only [hpos, if_false]
    have hfetch2 := hfetch
    rw [htp] at hfetch2 ⊢
    rw [hfetch2]
  rw [hrun]
  simp only
  have hmerge : ∀ b : Bool, w.create (w.join d.outputDir name) = b →
      (mergeFileParts w
          { d with outputFileName := name, fileSize := totalSize, doneFilePart := D }).1 =
        if b = true then .err .incompleteFile else .err .createFile := by
    intro b hb
    unfold mergeFileParts
    simp only [hb, mergeLoop_totalSize]
    cases b with
    | false => simp
    | true =>
      have hne := ne_of_lt hlt
      simp [hne]
  cases hb : w.create (w.join d.outputDir name) with
  | false =>
    rw [hmerge false hb]
    simp
  | true =>
    rw [hmerge true hb]
    simp

/-- C3 (amended) on `shortWorld`: the body of part 1 is one byte short of its
range `[3,3]`, the part fails with the length-mismatch error, and `Run`
returns the incomplete-file error. -/
theorem C3_failed_nonempty_part_fails_merge_witness :
    (downloadPart shortWorld sampleFresh ⟨1, 3, 3, []⟩).1 = .err .lengthMismatch ∧
    (Run shortWorld sampleFresh [1, 0]).result = .err .incompleteFile :=
  ⟨by decide,
    (C3_failed_nonempty_part_fails_merge shortWorld "http://host/pub/f.bin" "" "/tmp" "" 2 4
      sampleFresh [1, 0] (by decide) (by decide) (by decide) (by decide) (by decide)
      (by decide) (by decide)).2.2.2.1 (by decide)⟩

end Downloader
